import Mathlib

/- Verification of the ThreadPool repository (src/main.cpp): a fixed-size
worker pool with a mutex/condition-variable task queue (`Queue`), worker
threads running `Worker::runKernel`, cooperative stop tokens, per-worker
`done` flags and the completion predicate of `ThreadPool::waitUntilFinish`.
The concurrent parts are embedded as an interleaved transition system over
explicit pool states; the pure parts (queue operations, task packaging and
futures) as Lean functions translated from the source. -/

/-- Tasks held by the queue are identified by their submission index:
`ThreadPool::addTask` call number `k` enqueues id `k`. -/
abbrev TaskId := Nat

/-- `Queue::pop(std::stop_token&)` (src/main.cpp:34-44), modelled at the
point where `m_q_cv.wait(lck, st, pred)` has returned: the wait returns only
when the queue is non-empty or stop was requested.  The code then checks
`st.stop_requested()`; when it is true it returns the empty optional and
touches nothing, otherwise it removes and returns `q.front()`.  The branch
for an empty queue with stop not requested is unreachable (the wait would
still be blocking); it is mapped to `(none, [])`. -/
def Queue.pop (stopRequested : Bool) (q : List TaskId) : Option TaskId × List TaskId :=
  if stopRequested then
    (none, q)
  else
    match q with
    | t :: rest => (some t, rest)
    | [] => (none, [])

/-- `Queue::push(Task&&)` (src/main.cpp:46-50): `q.push_back` under the
mutex, then `notify_one`. -/
def Queue.push (q : List TaskId) (t : TaskId) : List TaskId := q ++ [t]

/-- C1 counterexample: `Queue::pop` returns the empty optional while the
queue is non-empty, namely whenever the stop token is already triggered at
the post-wait check — refuting that pop never returns empty while the
sequence is non-empty. -/
theorem pop_cancelled_nonempty_returns_none :
    Queue.pop true [0] = (none, [0]) ∧ ([0] : List TaskId) ≠ [] := by
  constructor
  · rfl
  · simp

/-- C1 (amended): under the wait's postcondition (stop requested or queue
non-empty), `Queue::pop` returns empty exactly when the stop token is
triggered at the post-wait check — even when the queue is non-empty — and in
that case consumes nothing; when stop is not requested it removes and
returns the head (FIFO). -/
theorem pop_amended (stopRequested : Bool) (q : List TaskId)
    (hv : stopRequested = true ∨ q ≠ []) :
    (stopRequested = true → Queue.pop stopRequested q = (none, q)) ∧
    (stopRequested = false →
      ∃ t rest, q = t :: rest ∧ Queue.pop stopRequested q = (some t, rest)) := by
  constructor
  · intro hs
    subst hs
    rfl
  · intro hs
    subst hs
    rcases q with _ | ⟨t, rest⟩
    · rcases hv with hv | hv
      · exact absurd hv (by simp)
      · exact absurd rfl hv
    · exact ⟨t, rest, rfl, rfl⟩

/-- C1 witness: the amended behaviour at concrete inputs — a triggered stop
token with the non-empty queue `[2]` yields empty and leaves the queue
intact, while an untriggered token on `[3, 4]` removes and returns the
head. -/
theorem pop_amended_witness :
    Queue.pop true [2] = (none, [2]) ∧
    (∃ t rest, ([3, 4] : List TaskId) = t :: rest ∧
      Queue.pop false [3, 4] = (some t, rest)) := by
  constructor
  · exact (pop_amended true [2] (Or.inl rfl)).1 rfl
  · exact (pop_amended false [3, 4] (Or.inr (by simp))).2 rfl

/-- Program points of the loop of `Worker::runKernel` (src/main.cpp:117-127):
blocked in `getTask`, holding a just-popped task before `done = false;`,
between `done = false;` and the task body, after the task body before
`done = true;`, after the loop before the final `done = true;`, and the
thread function having returned. -/
inductive WPC where
  | popping
  | claimed
  | running
  | ranTask
  | exiting
  | stopped
deriving DecidableEq

/-- One `Worker` (src/main.cpp:15-28): the `done` flag (src/main.cpp:25,
initialised `false`), the program point inside `runKernel`, the task popped
but not yet finished, and whether `request_stop` was called on its
`jthread`. -/
structure WorkerState where
  pc : WPC
  done : Bool
  current : Option TaskId
  stop : Bool
deriving DecidableEq

/-- The `ThreadPool` (src/main.cpp:70-115) together with two history
variables: `dequeued` records the order in which `Queue::pop` returned
tasks, `executed` the order in which task bodies completed.  `pushed` counts
`addTask` calls; task ids are issued consecutively. -/
structure PoolState where
  queue : List TaskId
  workers : List WorkerState
  pushed : Nat
  dequeued : List TaskId
  executed : List TaskId
deriving DecidableEq

/-- A worker as constructed by `Worker::Worker` (src/main.cpp:17): `done`
initialised to `false`, thread entering `runKernel` at the blocking pop, no
task claimed, stop not requested. -/
def initWorker : WorkerState :=
  { pc := WPC.popping, done := false, current := none, stop := false }

/-- `ThreadPool::ThreadPool(std::size_t sz)` (src/main.cpp:72-77): starts
`sz` workers immediately; performs no validation of `sz` whatsoever, and has
no failure path.  Queue empty, nothing submitted, dequeued or executed. -/
def initState (sz : Nat) : PoolState :=
  { queue := [], workers := List.replicate sz initWorker,
    pushed := 0, dequeued := [], executed := [] }

/-- Interleaved small-step semantics of the pool: producer `addTask` pushes
(src/main.cpp:87), `requestStop` triggers a worker's stop token
(src/main.cpp:19-21), and each worker advances through `runKernel`
(src/main.cpp:117-127).  Queue operations happen atomically under the queue
mutex; the assignments to `done` are separate steps, as in the source, where
they are not under any lock shared with the queue. -/
inductive Step : PoolState → PoolState → Prop where
  | push (s s' : PoolState)
      (h : s' = { s with queue := Queue.push s.queue s.pushed, pushed := s.pushed + 1 }) :
      Step s s'
  | requestStop (s s' : PoolState) (i : Nat) (w : WorkerState)
      (hw : s.workers.get? i = some w)
      (h : s' = { s with workers := s.workers.set i { w with stop := true } }) :
      Step s s'
  | popSuccess (s s' : PoolState) (i : Nat) (w : WorkerState) (t : TaskId) (rest : List TaskId)
      (hw : s.workers.get? i = some w) (hpc : w.pc = WPC.popping)
      (hpop : Queue.pop w.stop s.queue = (some t, rest))
      (h : s' = { s with
                  queue := rest, dequeued := s.dequeued ++ [t],
                  workers := s.workers.set i
                    { w with pc := WPC.claimed, current := some t } }) :
      Step s s'
  | popEmpty (s s' : PoolState) (i : Nat) (w : WorkerState)
      (hw : s.workers.get? i = some w) (hpc : w.pc = WPC.popping)
      (hstop : w.stop = true)
      (h : s' = { s with workers := s.workers.set i { w with pc := WPC.exiting } }) :
      Step s s'
  | markBusy (s s' : PoolState) (i : Nat) (w : WorkerState)
      (hw : s.workers.get? i = some w) (hpc : w.pc = WPC.claimed)
      (h : s' = { s with
                  workers := s.workers.set i
                    { w with pc := WPC.running, done := false } }) :
      Step s s'
  | runTask (s s' : PoolState) (i : Nat) (w : WorkerState) (t : TaskId)
      (hw : s.workers.get? i = some w) (hpc : w.pc = WPC.running)
      (hcur : w.current = some t)
      (h : s' = { s with
                  executed := s.executed ++ [t],
                  workers := s.workers.set i
                    { w with pc := WPC.ranTask, current := none } }) :
      Step s s'
  | markDone (s s' : PoolState) (i : Nat) (w : WorkerState)
      (hw : s.workers.get? i = some w) (hpc : w.pc = WPC.ranTask)
      (h : s' = { s with
                  workers := s.workers.set i
                    { w with pc := WPC.popping, done := true } }) :
      Step s s'
  | exitLoop (s s' : PoolState) (i : Nat) (w : WorkerState)
      (hw : s.workers.get? i = some w) (hpc : w.pc = WPC.exiting)
      (h : s' = { s with
                  workers := s.workers.set i
                    { w with pc := WPC.stopped, done := true } }) :
      Step s s'

/-- States reachable from a freshly constructed pool of `n` workers. -/
inductive Reach (n : Nat) : PoolState → Prop where
  | init : Reach n (initState n)
  | step {s s' : PoolState} : Reach n s → Step s s' → Reach n s'

/-- Zero or more steps from an arbitrary state. -/
inductive Steps : PoolState → PoolState → Prop where
  | refl (s : PoolState) : Steps s s
  | tail {s s' s'' : PoolState} : Steps s s' → Step s' s'' → Steps s s''

/-- The task a worker has popped but not yet finished, as a list. -/
def curList (w : WorkerState) : List TaskId := w.current.toList

/-- All tasks dequeued but not yet executed, across workers. -/
def inFlight (s : PoolState) : List TaskId := s.workers.flatMap curList

/-- The predicate `ThreadPool::waitUntilFinish` waits on
(src/main.cpp:100-107): `q.isEmpty() && all_of(workers, isDone)`.  Here it
is even evaluated as one atomic snapshot of the whole state, which is more
than the source guarantees. -/
def barrier (s : PoolState) : Bool :=
  s.queue.isEmpty && s.workers.all (fun w => w.done)

/-- Every worker's stop token has been triggered (shutdown in progress). -/
def allStop (s : PoolState) : Prop := ∀ w ∈ s.workers, w.stop = true

/-- A successful `Queue::pop` happens only when stop was not requested, and
removes exactly the head of the queue. -/
theorem pop_some_inv {stopRequested : Bool} {q : List TaskId} {t : TaskId}
    {rest : List TaskId} (h : Queue.pop stopRequested q = (some t, rest)) :
    stopRequested = false ∧ q = t :: rest := by
  cases stopRequested with
  | false =>
    cases q with
    | nil => simp [Queue.pop] at h
    | cons a l =>
      simp [Queue.pop] at h
      exact ⟨rfl, by rw [h.1, h.2]⟩
  | true => simp [Queue.pop] at h

/-- A fresh pool has no task in flight. -/
theorem inFlight_initState (n : Nat) : inFlight (initState n) = [] := by
  induction n with
  | zero => rfl
  | succ k ih =>
    show (List.replicate (k + 1) initWorker).flatMap curList = []
    rw [List.replicate_succ, List.flatMap_cons]
    simp only [curList, initWorker, Option.toList, List.nil_append]
    exact ih

/-- Replacing element `i` of a list changes a `flatMap` only by swapping
that element's contribution, up to permutation. -/
theorem flatMap_set_perm {α β : Type} [DecidableEq β] (g : α → List β) :
    ∀ (l : List α) (i : Nat) (a b : α), l.get? i = some b →
      List.Perm ((l.set i a).flatMap g ++ g b) (l.flatMap g ++ g a) := by
  intro l
  induction l with
  | nil =>
    intro i a b h
    simp at h
  | cons hd tl ih =>
    intro i a b h
    cases i with
    | zero =>
      simp only [List.get?] at h
      injection h with h
      subst h
      simp only [List.set, List.flatMap_cons]
      refine List.perm_iff_count.mpr ?_
      intro x
      simp [List.count_append]
      omega
    | succ j =>
      simp only [List.get?] at h
      have hp := ih j a b h
      simp only [List.set, List.flatMap_cons, List.append_assoc]
      exact List.Perm.append_left (g hd) hp

/-- Replacing worker `i` with one holding the same task leaves the in-flight
multiset unchanged. -/
theorem inFlight_set_same {s : PoolState} {i : Nat} {w w2 : WorkerState}
    (hw : s.workers.get? i = some w) (hc : w2.current = w.current) :
    List.Perm ((s.workers.set i w2).flatMap curList) (inFlight s) := by
  have h := flatMap_set_perm curList s.workers i w2 w hw
  have hcl : curList w2 = curList w := by simp [curList, hc]
  rw [hcl] at h
  exact (List.perm_append_right_iff (curList w)).mp h

/-- Conservation is preserved by any worker update that does not touch the
claimed task. -/
theorem conserve_set {s : PoolState} {i : Nat} {w w2 : WorkerState}
    (hw : s.workers.get? i = some w) (hc : w2.current = w.current)
    (hcons : List.Perm (s.executed ++ inFlight s) s.dequeued) :
    List.Perm (s.executed ++ (s.workers.set i w2).flatMap curList) s.dequeued :=
  (List.Perm.append_left s.executed (inFlight_set_same hw hc)).trans hcons

/-- Conservation after a successful pop: the popped task moves from the
queue into the popping worker's hand, and onto the dequeue record. -/
theorem conserve_pop {s : PoolState} {i : Nat} {w : WorkerState} {t : TaskId}
    (hw : s.workers.get? i = some w) (hcur : w.current = none)
    (hcons : List.Perm (s.executed ++ inFlight s) s.dequeued) :
    List.Perm (s.executed ++ (s.workers.set i
        { w with pc := WPC.claimed, current := some t }).flatMap curList)
      (s.dequeued ++ [t]) := by
  have hIF : List.Perm ((s.workers.set i
      { w with pc := WPC.claimed, current := some t }).flatMap curList)
      (inFlight s ++ [t]) := by
    simpa [curList, hcur] using flatMap_set_perm curList s.workers i
      { w with pc := WPC.claimed, current := some t } w hw
  refine (List.Perm.append_left s.executed hIF).trans ?_
  rw [← List.append_assoc]
  exact List.Perm.append_right [t] hcons

/-- Conservation after a task body completes: the task moves from the
worker's hand onto the execution record. -/
theorem conserve_run {s : PoolState} {i : Nat} {w : WorkerState} {t : TaskId}
    (hw : s.workers.get? i = some w) (hcur : w.current = some t)
    (hcons : List.Perm (s.executed ++ inFlight s) s.dequeued) :
    List.Perm ((s.executed ++ [t]) ++ (s.workers.set i
        { w with pc := WPC.ranTask, current := none }).flatMap curList)
      s.dequeued := by
  have hperm : List.Perm ((s.workers.set i
      { w with pc := WPC.ranTask, current := none }).flatMap curList ++ [t])
      (inFlight s) := by
    simpa [curList, hcur] using flatMap_set_perm curList s.workers i
      { w with pc := WPC.ranTask, current := none } w hw
  rw [List.append_assoc]
  exact (List.Perm.append_left s.executed
    (List.perm_append_comm.trans hperm)).trans hcons

/-- A worker update preserves tidiness when the new worker is tidy. -/
theorem tidy_set {s : PoolState} {i : Nat} {w2 : WorkerState}
    (htidy : ∀ x ∈ s.workers,
      x.pc ≠ WPC.claimed → x.pc ≠ WPC.running → x.current = none)
    (h2 : w2.pc ≠ WPC.claimed → w2.pc ≠ WPC.running → w2.current = none) :
    ∀ x ∈ s.workers.set i w2,
      x.pc ≠ WPC.claimed → x.pc ≠ WPC.running → x.current = none := by
  intro x hx ha hb
  rcases List.mem_or_eq_of_mem_set hx with hx | rfl
  · exact htidy x hx ha hb
  · exact h2 ha hb

/-- Inductive invariant: dequeue order is exactly submission order (the
queue holds the not-yet-dequeued suffix of the submission sequence), every
dequeued task is either executed or in exactly one worker's hand, and only a
worker between a successful pop and the end of its task body holds a
task. -/
structure PoolInv (s : PoolState) : Prop where
  fifo : s.dequeued ++ s.queue = List.range s.pushed
  conserve : List.Perm (s.executed ++ inFlight s) s.dequeued
  tidy : ∀ x ∈ s.workers,
    x.pc ≠ WPC.claimed → x.pc ≠ WPC.running → x.current = none

/-- Every reachable pool state satisfies the invariant. -/
theorem reach_inv (n : Nat) (s : PoolState) (h : Reach n s) : PoolInv s := by
  induction h with
  | init =>
    refine ⟨by simp [initState], ?_, ?_⟩
    · show List.Perm ((initState n).executed ++ inFlight (initState n))
        (initState n).dequeued
      rw [inFlight_initState]
      exact List.Perm.nil
    · intro x hx _ _
      have hx2 : x = initWorker := List.eq_of_mem_replicate hx
      simp [hx2, initWorker]
  | step hr hst ih =>
    cases hst with
    | push heq =>
      subst heq
      refine ⟨?_, ih.conserve, ih.tidy⟩
      show _ ++ Queue.push _ _ = _
      rw [Queue.push, ← List.append_assoc, ih.fifo, List.range_succ]
    | requestStop i w hw heq =>
      subst heq
      exact ⟨ih.fifo, conserve_set hw rfl ih.conserve,
        tidy_set ih.tidy (fun ha hb => ih.tidy w (List.get?_mem hw) ha hb)⟩
    | popSuccess i w t rest hw hpc hpop heq =>
      subst heq
      obtain ⟨hstop, hq⟩ := pop_some_inv hpop
      have hcur : w.current = none :=
        ih.tidy w (List.get?_mem hw) (by simp [hpc]) (by simp [hpc])
      refine ⟨?_, conserve_pop hw hcur ih.conserve,
        tidy_set ih.tidy (fun ha _ => absurd rfl ha)⟩
      show (_ ++ [t]) ++ rest = _
      rw [List.append_assoc, List.singleton_append, ← hq]
      exact ih.fifo
    | popEmpty i w hw hpc hstop heq =>
      subst heq
      exact ⟨ih.fifo, conserve_set hw rfl ih.conserve,
        tidy_set ih.tidy (fun _ _ =>
          ih.tidy w (List.get?_mem hw) (by simp [hpc]) (by simp [hpc]))⟩
    | markBusy i w hw hpc heq =>
      subst heq
      exact ⟨ih.fifo, conserve_set hw rfl ih.conserve,
        tidy_set ih.tidy (fun _ hb => absurd rfl hb)⟩
    | runTask i w t hw hpc hcur heq =>
      subst heq
      exact ⟨ih.fifo, conserve_run hw hcur ih.conserve,
        tidy_set ih.tidy (fun _ _ => rfl)⟩
    | markDone i w hw hpc heq =>
      subst heq
      exact ⟨ih.fifo, conserve_set hw rfl ih.conserve,
        tidy_set ih.tidy (fun _ _ =>
          ih.tidy w (List.get?_mem hw) (by simp [hpc]) (by simp [hpc]))⟩
    | exitLoop i w hw hpc heq =>
      subst heq
      exact ⟨ih.fifo, conserve_set hw rfl ih.conserve,
        tidy_set ih.tidy (fun _ _ =>
          ih.tidy w (List.get?_mem hw) (by simp [hpc]) (by simp [hpc]))⟩

/- A concrete run of a one-worker pool, used as witness material: task 0 is
pushed, popped and executed; then task 1 is pushed and popped.  `exS7` —
reached just after the second pop, before the worker re-executes
`done = false;` — is the race state behind the broken completion barrier:
the queue is empty and `done` still reads `true` from the previous
iteration although task 1 sits unexecuted in the worker's hand. -/

def exS1 : PoolState :=
  { queue := [0], workers := [initWorker], pushed := 1, dequeued := [], executed := [] }

def exS2 : PoolState :=
  { queue := [], workers := [⟨WPC.claimed, false, some 0, false⟩],
    pushed := 1, dequeued := [0], executed := [] }

def exS3 : PoolState :=
  { queue := [], workers := [⟨WPC.running, false, some 0, false⟩],
    pushed := 1, dequeued := [0], executed := [] }

def exS4 : PoolState :=
  { queue := [], workers := [⟨WPC.ranTask, false, none, false⟩],
    pushed := 1, dequeued := [0], executed := [0] }

def exS5 : PoolState :=
  { queue := [], workers := [⟨WPC.popping, true, none, false⟩],
    pushed := 1, dequeued := [0], executed := [0] }

def exS6 : PoolState :=
  { queue := [1], workers := [⟨WPC.popping, true, none, false⟩],
    pushed := 2, dequeued := [0], executed := [0] }

def exS7 : PoolState :=
  { queue := [], workers := [⟨WPC.claimed, true, some 1, false⟩],
    pushed := 2, dequeued := [0, 1], executed := [0] }

def exS8 : PoolState :=
  { queue := [], workers := [⟨WPC.running, false, some 1, false⟩],
    pushed := 2, dequeued := [0, 1], executed := [0] }

def exS9 : PoolState :=
  { queue := [], workers := [⟨WPC.ranTask, false, none, false⟩],
    pushed := 2, dequeued := [0, 1], executed := [0, 1] }

def exS10 : PoolState :=
  { queue := [], workers := [⟨WPC.popping, true, none, false⟩],
    pushed := 2, dequeued := [0, 1], executed := [0, 1] }

def exS11 : PoolState :=
  { queue := [], workers := [⟨WPC.popping, true, none, true⟩],
    pushed := 2, dequeued := [0, 1], executed := [0, 1] }

def exS12 : PoolState :=
  { queue := [], workers := [⟨WPC.exiting, true, none, true⟩],
    pushed := 2, dequeued := [0, 1], executed := [0, 1] }

def exS13 : PoolState :=
  { queue := [], workers := [⟨WPC.stopped, true, none, true⟩],
    pushed := 2, dequeued := [0, 1], executed := [0, 1] }

/-- The race state `exS7` is reachable in a one-worker pool. -/
theorem reach_exS7 : Reach 1 exS7 := by
  have h0 : Reach 1 (initState 1) := Reach.init
  have h1 : Reach 1 exS1 := h0.step (Step.push _ _ (by decide))
  have h2 : Reach 1 exS2 :=
    h1.step (Step.popSuccess _ _ 0 initWorker 0 [] (by decide) (by decide)
      (by decide) (by decide))
  have h3 : Reach 1 exS3 :=
    h2.step (Step.markBusy _ _ 0 ⟨WPC.claimed, false, some 0, false⟩
      (by decide) (by decide) (by decide))
  have h4 : Reach 1 exS4 :=
    h3.step (Step.runTask _ _ 0 ⟨WPC.running, false, some 0, false⟩ 0
      (by decide) (by decide) (by decide) (by decide))
  have h5 : Reach 1 exS5 :=
    h4.step (Step.markDone _ _ 0 ⟨WPC.ranTask, false, none, false⟩
      (by decide) (by decide) (by decide))
  have h6 : Reach 1 exS6 := h5.step (Step.push _ _ (by decide))
  exact h6.step (Step.popSuccess _ _ 0 ⟨WPC.popping, true, none, false⟩ 1 []
    (by decide) (by decide) (by decide) (by decide))

/-- The drained state `exS10` (both tasks executed, nothing in flight) is
reachable in a one-worker pool. -/
theorem reach_exS10 : Reach 1 exS10 := by
  have h8 : Reach 1 exS8 :=
    reach_exS7.step (Step.markBusy _ _ 0 ⟨WPC.claimed, true, some 1, false⟩
      (by decide) (by decide) (by decide))
  have h9 : Reach 1 exS9 :=
    h8.step (Step.runTask _ _ 0 ⟨WPC.running, false, some 1, false⟩ 1
      (by decide) (by decide) (by decide) (by decide))
  exact h9.step (Step.markDone _ _ 0 ⟨WPC.ranTask, false, none, false⟩
    (by decide) (by decide) (by decide))

/-- After shutdown is signalled in `exS11` the worker can only observe the
stop token, exit its loop and stop. -/
theorem steps_exS11_exS13 : Steps exS11 exS13 :=
  Steps.tail (Steps.tail (Steps.refl exS11)
      (Step.popEmpty exS11 exS12 0 ⟨WPC.popping, true, none, true⟩
        (by decide) (by decide) (by decide) (by decide)))
    (Step.exitLoop exS12 exS13 0 ⟨WPC.exiting, true, none, true⟩
      (by decide) (by decide) (by decide))

/-- C2: the completion predicate of `ThreadPool::waitUntilFinish` is not a
race-free barrier.  There is a reachable state — after the run behind
`reach_exS7`, where the worker finished task 0, set `done = true`, then
dequeued task 1 but has not yet re-executed `done = false;` — in which the
queue is empty and every worker's `done` flag reads true, so the waited-on
predicate holds even as one fully atomic snapshot, while a dequeued task is
still unexecuted in the worker's hand.  `waitUntilFinish` can therefore
return with work in flight. -/
theorem barrier_holds_with_task_in_flight :
    ∃ s : PoolState, Reach 1 s ∧ barrier s = true ∧ inFlight s ≠ [] :=
  ⟨exS7, reach_exS7, by decide, by decide⟩

/-- C3: on a freshly constructed one-worker pool the worker's `done` flag is
`false` (src/main.cpp:25 initialises it so), hence the predicate
`waitUntilFinish` waits on is false and the wait blocks — the initial state
is not treated as idle by the barrier. -/
theorem fresh_pool_barrier_fails :
    ((initState 1).workers.all fun w => !w.done) = true ∧
      barrier (initState 1) = false := by
  decide

/-- C4: in every reachable state, every task has been dequeued at most once
and executed at most once (no duplicates ever), and whenever the queue is
empty and no dequeued task is still in a worker's hand, the executed tasks
are exactly the submitted ones `0 .. pushed-1`, each exactly once. -/
theorem tasks_executed_exactly_once (n : Nat) (s : PoolState) (h : Reach n s) :
    s.dequeued.Nodup ∧ s.executed.Nodup ∧
      (s.queue = [] → inFlight s = [] →
        List.Perm s.executed (List.range s.pushed)) := by
  have hinv := reach_inv n s h
  have hdq : s.dequeued.Nodup := by
    have hr : (s.dequeued ++ s.queue).Nodup := by
      rw [hinv.fifo]
      exact List.nodup_range s.pushed
    exact hr.of_append_left
  refine ⟨hdq, ?_, ?_⟩
  · have h2 : (s.executed ++ inFlight s).Nodup := hinv.conserve.symm.nodup hdq
    exact h2.of_append_left
  · intro hq hF
    have hc := hinv.conserve
    rw [hF, List.append_nil] at hc
    have hf := hinv.fifo
    rw [hq, List.append_nil] at hf
    rw [← hf]
    exact hc

/-- C4 witness: the drained reachable state `exS10` of the concrete
one-worker run — both dequeue and execution records are duplicate-free, and
the executed tasks are exactly the two submitted ones. -/
theorem tasks_executed_exactly_once_witness :
    exS10.dequeued.Nodup ∧ exS10.executed.Nodup ∧
      (exS10.queue = [] → inFlight exS10 = [] →
        List.Perm exS10.executed (List.range exS10.pushed)) :=
  tasks_executed_exactly_once 1 exS10 reach_exS10

/-- C5: the queue is FIFO.  A successful pop returns the earliest-pushed
pending task, and in every reachable state the dequeue record followed by
the still-queued tasks is exactly the submission sequence `0 .. pushed-1` in
order — tasks are dequeued in submission order. -/
theorem fifo_dequeue_order (n : Nat) (s : PoolState) (h : Reach n s) :
    (∀ (t : TaskId) (rest : List TaskId),
      Queue.pop false (t :: rest) = (some t, rest)) ∧
    s.dequeued ++ s.queue = List.range s.pushed :=
  ⟨fun _ _ => rfl, (reach_inv n s h).fifo⟩

/-- C5 witness: in the concrete run's state `exS10`, the dequeue record
`[0, 1]` is the submission order of the two pushed tasks. -/
theorem fifo_dequeue_order_witness :
    (∀ (t : TaskId) (rest : List TaskId),
      Queue.pop false (t :: rest) = (some t, rest)) ∧
    exS10.dequeued ++ exS10.queue = List.range exS10.pushed :=
  fifo_dequeue_order 1 exS10 reach_exS10

/-- C8 counterexample: constructing a pool with zero workers is not
rejected — the constructor has no failure path at all and yields an
ordinary pool state with an empty worker vector, so nothing is reported to
the caller, synchronously or otherwise. -/
theorem zero_workers_accepted :
    initState 0 =
      { queue := [], workers := [], pushed := 0, dequeued := [], executed := [] } :=
  rfl

/-- C8 (amended): a zero-worker pool is silently accepted and permanently
inert: it has no workers, and in every state reachable from it nothing is
ever dequeued or executed — submitted tasks only accumulate in the queue. -/
theorem zero_workers_silent (s : PoolState) (h : Reach 0 s) :
    s.workers = [] ∧ s.dequeued = [] ∧ s.executed = [] := by
  induction h with
  | init => exact ⟨rfl, rfl, rfl⟩
  | step hr hst ih =>
    obtain ⟨hw0, hd0, he0⟩ := ih
    cases hst with
    | push heq =>
      subst heq
      exact ⟨hw0, hd0, he0⟩
    | requestStop i w hw heq =>
      rw [hw0] at hw
      simp at hw
    | popSuccess i w t rest hw hpc hpop heq =>
      rw [hw0] at hw
      simp at hw
    | popEmpty i w hw hpc hstop heq =>
      rw [hw0] at hw
      simp at hw
    | markBusy i w hw hpc heq =>
      rw [hw0] at hw
      simp at hw
    | runTask i w t hw hpc hcur heq =>
      rw [hw0] at hw
      simp at hw
    | markDone i w hw hpc heq =>
      rw [hw0] at hw
      simp at hw
    | exitLoop i w hw hpc heq =>
      rw [hw0] at hw
      simp at hw

/-- C8 witness: the freshly constructed zero-worker pool itself. -/
theorem zero_workers_silent_witness :
    (initState 0).workers = [] ∧ (initState 0).dequeued = [] ∧
      (initState 0).executed = [] :=
  zero_workers_silent (initState 0) Reach.init

/-- Every step preserves "all stop tokens triggered": a successful pop would
need an untriggered token, and no other step clears one. -/
theorem allStop_preserved {s s2 : PoolState} (hst : Step s s2)
    (h : allStop s) : allStop s2 := by
  cases hst with
  | push heq =>
    subst heq
    exact h
  | requestStop i w hw heq =>
    subst heq
    intro x hx
    rcases List.mem_or_eq_of_mem_set hx with hx | rfl
    · exact h x hx
    · rfl
  | popSuccess i w t rest hw hpc hpop heq =>
    obtain ⟨hs0, _⟩ := pop_some_inv hpop
    rw [h w (List.get?_mem hw)] at hs0
    exact absurd hs0 (by simp)
  | popEmpty i w hw hpc hstop heq =>
    subst heq
    intro x hx
    rcases List.mem_or_eq_of_mem_set hx with hx | rfl
    · exact h x hx
    · exact h w (List.get?_mem hw)
  | markBusy i w hw hpc heq =>
    subst heq
    intro x hx
    rcases List.mem_or_eq_of_mem_set hx with hx | rfl
    · exact h x hx
    · exact h w (List.get?_mem hw)
  | runTask i w t hw hpc hcur heq =>
    subst heq
    intro x hx
    rcases List.mem_or_eq_of_mem_set hx with hx | rfl
    · exact h x hx
    · exact h w (List.get?_mem hw)
  | markDone i w hw hpc heq =>
    subst heq
    intro x hx
    rcases List.mem_or_eq_of_mem_set hx with hx | rfl
    · exact h x hx
    · exact h w (List.get?_mem hw)
  | exitLoop i w hw hpc heq =>
    subst heq
    intro x hx
    rcases List.mem_or_eq_of_mem_set hx with hx | rfl
    · exact h x hx
    · exact h w (List.get?_mem hw)

/-- Under triggered stop tokens no single step dequeues anything. -/
theorem dequeued_const_of_allStop {s s2 : PoolState} (hst : Step s s2)
    (h : allStop s) : s2.dequeued = s.dequeued := by
  cases hst with
  | push heq => subst heq; rfl
  | requestStop i w hw heq => subst heq; rfl
  | popSuccess i w t rest hw hpc hpop heq =>
    obtain ⟨hs0, _⟩ := pop_some_inv hpop
    rw [h w (List.get?_mem hw)] at hs0
    exact absurd hs0 (by simp)
  | popEmpty i w hw hpc hstop heq => subst heq; rfl
  | markBusy i w hw hpc heq => subst heq; rfl
  | runTask i w t hw hpc hcur heq => subst heq; rfl
  | markDone i w hw hpc heq => subst heq; rfl
  | exitLoop i w hw hpc heq => subst heq; rfl

/-- Once every stop token is triggered, no execution dequeues anything ever
again. -/
theorem steps_dequeued_of_allStop {s s2 : PoolState} (hsteps : Steps s s2)
    (h : allStop s) : allStop s2 ∧ s2.dequeued = s.dequeued := by
  induction hsteps with
  | refl => exact ⟨h, rfl⟩
  | tail hs hst ih =>
    obtain ⟨ha, hd⟩ := ih
    exact ⟨allStop_preserved hst ha, (dequeued_const_of_allStop hst ha).trans hd⟩

/-- C10: after cancellation, `Queue::pop` returns empty without consuming,
whatever the queue holds; and from any state whose workers all have
triggered stop tokens, no continuation ever dequeues again — every task
still resident in the queue when shutdown begins is abandoned, never
drained. -/
theorem stop_abandons_queue (q : List TaskId) (s s2 : PoolState)
    (hstop : allStop s) (hsteps : Steps s s2) :
    Queue.pop true q = (none, q) ∧ s2.dequeued = s.dequeued :=
  ⟨rfl, (steps_dequeued_of_allStop hsteps hstop).2⟩

/-- C10 witness: from the all-stopped state `exS11`, through the worker's
observing cancellation and exiting (`steps_exS11_exS13`), the dequeue record
stays `[0, 1]`; and pop on the non-empty queue `[9]` under a triggered token
yields empty. -/
theorem stop_abandons_queue_witness :
    Queue.pop true [9] = (none, [9]) ∧ exS13.dequeued = exS11.dequeued :=
  stop_abandons_queue [9] exS11 exS13
    (by
      intro w hw
      simp only [exS11, List.mem_singleton] at hw
      subst hw
      rfl)
    steps_exS11_exS13

/-- The callable bound to its arguments by `std::bind(f, args...)` and
wrapped in a `std::packaged_task` (`ThreadPool::addTask`,
src/main.cpp:82-84): running it produces either the computed value or the
exception the body raised; `std::packaged_task::operator()` catches the
latter itself, which the `Except` result type models. -/
structure PackagedTask (E R : Type) where
  run : Except E R

/-- The shared state behind the `std::future` from `pt.get_future()`
(src/main.cpp:85): empty until the packaged task has been invoked, then
holding the value or the captured exception. -/
structure FutureState (E R : Type) where
  slot : Option (Except E R)

/-- `ThreadPool::addTask(Func&&, Args&&...)` (src/main.cpp:79-89): binds the
arguments, wraps the bound call in a packaged task — whose erased form
`[pt = std::move(pt)] mutable { pt(); }` is what `q.push` enqueues — and
returns the paired future, not yet filled, before any execution. -/
def addTask {A E R : Type} (f : A → Except E R) (a : A) :
    PackagedTask E R × FutureState E R :=
  ({ run := f a }, { slot := none })

/-- Invocation of the erased task body `(*task)()` by `Worker::runKernel`
(src/main.cpp:121): `pt()` runs the bound call and stores its value — or the
exception it raised — into the future's shared state; nothing escapes into
the worker's loop. -/
def execTask {E R : Type} (pt : PackagedTask E R) : FutureState E R :=
  { slot := some pt.run }

/-- `std::future::get` once the outcome is available (the call blocks until
then, so it is modelled under the availability hypothesis): the stored
value, or the captured exception re-raised. -/
def FutureState.get {E R : Type} (fs : FutureState E R)
    (h : fs.slot.isSome = true) : Except E R :=
  fs.slot.get h

/-- C6: the outcome delivered through the future returned by `addTask` is
exactly the result of invoking the callable on the bound arguments directly:
the computed value when the body returns, the raised failure when it
throws. -/
theorem result_matches_direct_invocation {A E R : Type} (f : A → Except E R)
    (a : A) (h : ((execTask (addTask f a).1).slot).isSome = true) :
    FutureState.get (execTask (addTask f a).1) h = f a :=
  rfl

/-- C6 witness: submitting `fun n => n + 1` applied to `3` delivers `4`
through the future, and a body raising error code `7` delivers that failure
through the future. -/
theorem result_matches_direct_invocation_witness :
    FutureState.get
        (execTask (addTask (fun n : Nat => (Except.ok (n + 1) : Except Nat Nat)) 3).1)
        rfl = Except.ok 4 ∧
    FutureState.get
        (execTask (addTask (fun _ : Nat => (Except.error 7 : Except Nat Nat)) 0).1)
        rfl = Except.error 7 :=
  ⟨result_matches_direct_invocation (fun n : Nat => (Except.ok (n + 1) : Except Nat Nat)) 3 rfl,
    result_matches_direct_invocation (fun _ : Nat => (Except.error 7 : Except Nat Nat)) 0 rfl⟩

/-- The loop body of `Worker::runKernel` (src/main.cpp:119-124) applied to
the sequence of tasks a worker claims: each task is invoked and its future
filled, one after the other. -/
def runKernelTasks {E R : Type} : List (PackagedTask E R) → List (FutureState E R)
  | [] => []
  | pt :: rest => execTask pt :: runKernelTasks rest

/-- Every claimed task's future is filled with that task's own outcome. -/
theorem runKernelTasks_get? {E R : Type} :
    ∀ (ts : List (PackagedTask E R)) (i : Nat),
      (runKernelTasks ts).get? i = (ts.get? i).map execTask := by
  intro ts
  induction ts with
  | nil =>
    intro i
    rfl
  | cons pt rest ih =>
    intro i
    cases i with
    | zero => rfl
    | succ j => exact ih j

/-- C7: a task body that raises does not disturb the worker's loop: the
failure is captured into that task's own future (by the packaged task, so
nothing propagates out of `(*task)()`), and the worker goes on to process
every subsequent task, each landing in its own future. -/
theorem worker_survives_task_failure {E R : Type} (pt : PackagedTask E R)
    (rest : List (PackagedTask E R)) (e : E) (hf : pt.run = Except.error e) :
    runKernelTasks (pt :: rest) =
      { slot := some (Except.error e) } :: runKernelTasks rest ∧
    ∀ i : Nat, (runKernelTasks rest).get? i = (rest.get? i).map execTask := by
  constructor
  · show execTask pt :: runKernelTasks rest = _
    rw [execTask, hf]
  · exact runKernelTasks_get? rest

/-- C7 witness: a worker given a failing task (error code `5`) and then a
succeeding one (`7`) captures the failure in the first future and still
executes and delivers the second. -/
theorem worker_survives_task_failure_witness :
    runKernelTasks [(⟨Except.error 5⟩ : PackagedTask Nat Nat), ⟨Except.ok 7⟩] =
      { slot := some (Except.error 5) } ::
        runKernelTasks [(⟨Except.ok 7⟩ : PackagedTask Nat Nat)] ∧
    ∀ i : Nat,
      (runKernelTasks [(⟨Except.ok 7⟩ : PackagedTask Nat Nat)]).get? i =
        ([(⟨Except.ok 7⟩ : PackagedTask Nat Nat)].get? i).map execTask :=
  worker_survives_task_failure ⟨Except.error 5⟩ [⟨Except.ok 7⟩] 5 rfl

/-- The construction of a `Worker` (src/main.cpp:17) interleaved with the
thread it spawns.  Members are initialised in declaration order
(src/main.cpp:25-27): `done`, then `m_thread` — whose construction already
starts the thread running `runKernel` — and only then the reference
`m_threadpool`.  The spawned thread's loop condition (src/main.cpp:119)
reads `m_threadpool`, and nothing synchronises that read with the rest of
the construction; `readUnstored` records that such a read happened while
`m_threadpool` was not yet initialised. -/
structure CtorState where
  threadStarted : Bool
  refStored : Bool
  readUnstored : Bool
deriving DecidableEq

/-- State at entry to `Worker::Worker`. -/
def ctorInit : CtorState :=
  { threadStarted := false, refStored := false, readUnstored := false }

/-- Interleaving of the constructor (which starts `m_thread` and then
initialises `m_threadpool`) with the spawned thread's read of
`m_threadpool`. -/
inductive CtorStep : CtorState → CtorState → Prop where
  | startThread (s s2 : CtorState) (h1 : s.threadStarted = false)
      (h : s2 = { s with threadStarted := true }) : CtorStep s s2
  | storeRef (s s2 : CtorState) (h1 : s.threadStarted = true)
      (h2 : s.refStored = false)
      (h : s2 = { s with refStored := true }) : CtorStep s s2
  | threadReadsPool (s s2 : CtorState) (h1 : s.threadStarted = true)
      (h : s2 = { s with readUnstored := s.readUnstored || !s.refStored }) :
      CtorStep s s2

/-- States reachable during one `Worker` construction. -/
inductive CtorReach : CtorState → Prop where
  | init : CtorReach ctorInit
  | step {s s2 : CtorState} : CtorReach s → CtorStep s s2 → CtorReach s2

/-- C9: there is a reachable interleaving of `Worker::Worker` in which the
spawned thread reads `m_threadpool` before the constructor has initialised
it — the member initialisation order starts the thread first and provides no
synchronisation, so the started thread can access an uninitialised
member. -/
theorem thread_reads_pool_before_stored :
    ∃ s : CtorState, CtorReach s ∧ s.readUnstored = true :=
  ⟨{ threadStarted := true, refStored := false, readUnstored := true },
    CtorReach.step
      (CtorReach.step CtorReach.init (CtorStep.startThread _ _ rfl rfl))
      (CtorStep.threadReadsPool _ _ rfl (by decide)),
    rfl⟩
